import Mathlib

/-!
Verification development for the layr route pattern engine and the
`@route()` decorator glue.

The repository sources under review contain the decorator layer
(`packages/routable/src/decorators.ts`) and its tests; the pattern
compiler/matcher/generator itself (`pattern.ts`, `route.ts`,
`routable.ts`) is not among the reviewed files, so those parts are
modelled from the specification document (`spec.md`), as indicated by
the doc comments below.
-/

namespace Layr

/-- Nested value: a string leaf or a nested object, used both for the
`identifiers` result of matching and for the value maps supplied to
generation (dotted key paths such as `studio.id` address into it). -/
inductive NValue where
  | str (s : String)
  | obj (fields : List (String × NValue))

/-- A nested object, as an association list of fields. -/
abbrev NMap := List (String × NValue)

/-- Modelled from the spec: the data model of a compiled Pattern
(§3): an ordered sequence of segments, where a segment is a literal,
an identifier capture carrying a dot-split key path, a query-string
param capture, a wildcard, or a bracketed optional group.  The source
file `pattern.ts` is not part of the reviewed sources. -/
inductive Segment where
  | literal (text : String)
  | identifierCapture (keyPath : List String)
  | paramCapture (name : String)
  | wildcard
  | optionalGroup (inner : List Segment)

/-- Field lookup in a nested object (first binding wins). -/
def lookupField : NMap → String → Option NValue
  | [], _ => none
  | (k, v) :: rest, key => if k = key then some v else lookupField rest key

/-- Field update/insert in a nested object. -/
def setField : NMap → String → NValue → NMap
  | [], k, v => [(k, v)]
  | (k', v') :: rest, k, v =>
      if k' = k then (k, v) :: rest else (k', v') :: setField rest k v

/-- Store a string at a dotted key path, creating nested objects along
the way (`studio.id` ↦ `{studio: {id: ...}}`). -/
def setKeyPath (m : NMap) : List String → String → NMap
  | [], _ => m
  | [k], s => setField m k (.str s)
  | k :: k' :: rest, s =>
      let sub := match lookupField m k with
        | some (.obj m') => m'
        | _ => []
      setField m k (.obj (setKeyPath sub (k' :: rest) s))

/-- Traverse a dotted key path through a nested value map. -/
def getKeyPath (m : NMap) : List String → Option NValue
  | [] => none
  | [k] => lookupField m k
  | k :: k' :: rest =>
      match lookupField m k with
      | some (.obj m') => getKeyPath m' (k' :: rest)
      | _ => none

/-! ## Path splitting and rendering -/

/-- Split a character list on a separator character; always returns at
least one (possibly empty) piece. -/
def splitOnCharList (sep : Char) : List Char → List (List Char)
  | [] => [[]]
  | c :: rest =>
      if c = sep then [] :: splitOnCharList sep rest
      else match splitOnCharList sep rest with
        | seg :: segs => (c :: seg) :: segs
        | [] => [[c]]

/-- Split a character list on `'/'`. -/
def splitSegsChars (cs : List Char) : List (List Char) :=
  splitOnCharList '/' cs

/-- Modelled from the spec: candidate path segmentation (§4.2) — the
path is split on `/` and the empty leading segment produced by the
mandatory initial `/` is discarded. -/
def splitPath (path : String) : List String :=
  (splitSegsChars (match path.data with
    | '/' :: rest => rest
    | cs => cs)).map (fun l => ⟨l⟩)

/-- Join character-list segments with `'/'`. -/
def joinSegsChars : List (List Char) → List Char
  | [] => []
  | [s] => s
  | s :: s' :: rest => s ++ '/' :: joinSegsChars (s' :: rest)

/-- Modelled from the spec: path rendering (§4.3) — generated segments
are joined with `/` and a single leading `/` is guaranteed. -/
def renderPath (parts : List String) : String :=
  ⟨'/' :: joinSegsChars (parts.map String.data)⟩

/-- A string containing no `/` character (a well-formed single path
segment or captured value). -/
def slashFree (s : String) : Bool :=
  s.data.all (fun c => c != '/')

/-! ## Tokenizer / parser

Modelled from the spec (§4.1): a single left-to-right scan with a
current-token accumulator and a stack of open bracket frames. -/

/-- The token currently being accumulated by the scanner. -/
inductive CurTok where
  | blank
  | lit (s : String)
  | ident (s : String)

/-- Modelled from the spec: scanner state (§4.1) — the stack holds one
segment sequence per open bracket depth (outermost last, each sequence
reversed), plus the current token, a flag recording that a `/` opened
a segment that has not been filled yet, and a flag recording that a
wildcard has been emitted (a wildcard must be the final segment). -/
structure ScanState where
  stack : List (List Segment)
  cur : CurTok
  pendingSlash : Bool
  wildcardDone : Bool

/-- Append a completed segment to the innermost open frame. -/
def pushSeg (st : ScanState) (seg : Segment) : Option ScanState :=
  match st.stack with
  | f :: rest => some { st with stack := (seg :: f) :: rest }
  | [] => none

/-- Flush the current token, if any, as a completed segment.  An
identifier with an empty name is a syntax error; an identifier name is
split on `.` into its key path. -/
def flushCur (st : ScanState) : Option ScanState :=
  match st.cur with
  | .blank => some st
  | .lit s => pushSeg { st with cur := .blank } (.literal s)
  | .ident s =>
      if s = "" then none
      else pushSeg { st with cur := .blank }
        (.identifierCapture ((splitOnCharList '.' s.data).map (fun l => ⟨l⟩)))

/-- Flush at a closing boundary (`]`, end of pattern, or start of the
query part): a pending `/` with no token denotes an explicit trailing
empty literal. -/
def flushBoundary (st : ScanState) : Option ScanState :=
  match st.cur with
  | .blank =>
      if st.pendingSlash then pushSeg st (.literal "")
      else some st
  | _ => flushCur st

/-- Finish the scan: the bracket stack must have exactly the outer
frame left, which is returned in source order. -/
def finishScan (st : ScanState) : Option (List Segment) :=
  match flushBoundary st with
  | some st' =>
      match st'.stack with
      | [frame] => some frame.reverse
      | _ => none
  | none => none

/-- Modelled from the spec: the scanner loop (§4.1).  `/` separates
segments (consecutive separators are invalid); `:` begins an
identifier-capture name; `*` emits a wildcard that must end the
pattern; `[`/`]` open and close an optional group; `?` ends the
pattern part (query portions are not compiled); any other character
extends the current literal or identifier name. -/
def scanPattern : List Char → ScanState → Option (List Segment)
  | [], st => finishScan st
  | c :: rest, st =>
      if st.wildcardDone then none
      else if c = '/' then
        match st.cur with
        | .blank =>
            if st.pendingSlash then none
            else scanPattern rest { st with pendingSlash := true }
        | _ =>
            match flushCur st with
            | some st' => scanPattern rest { st' with pendingSlash := true }
            | none => none
      else if c = '[' then
        match flushCur st with
        | some st' =>
            scanPattern rest { st' with stack := [] :: st'.stack, pendingSlash := false }
        | none => none
      else if c = ']' then
        match flushBoundary st with
        | some st' =>
            match st'.stack with
            | g :: parent :: more =>
                scanPattern rest
                  { st' with stack := ((Segment.optionalGroup g.reverse) :: parent) :: more,
                             pendingSlash := false }
            | _ => none
        | none => none
      else if c = ':' then
        match flushCur st with
        | some st' => scanPattern rest { st' with cur := .ident "" }
        | none => none
      else if c = '*' then
        match st.cur with
        | .blank =>
            match pushSeg st .wildcard with
            | some st' =>
                scanPattern rest { st' with wildcardDone := true, pendingSlash := false }
            | none => none
        | _ => none
      else if c = '?' then finishScan st
      else
        match st.cur with
        | .blank => scanPattern rest { st with cur := .lit (String.singleton c) }
        | .lit s => scanPattern rest { st with cur := .lit (s.push c) }
        | .ident s => scanPattern rest { st with cur := .ident (s.push c) }

mutual
/-- Key paths captured by one segment (descending into groups). -/
def segKeyPaths : Segment → List (List String)
  | .identifierCapture kp => [kp]
  | .optionalGroup inner => segsKeyPaths inner
  | _ => []

/-- Key paths captured by a segment sequence, in order. -/
def segsKeyPaths : List Segment → List (List String)
  | [] => []
  | s :: rest => segKeyPaths s ++ segsKeyPaths rest
end

/-- Whether a list of key paths contains a duplicate. -/
def hasDupKeyPaths : List (List String) → Bool
  | [] => false
  | k :: rest => rest.contains k || hasDupKeyPaths rest

/-- Modelled from the spec: `compile(patternString) -> Pattern`
(§4.1/§6) — a pattern must start with `/` (or `[` for a wrapper-style
prefix group), is scanned left to right, and duplicate identifier key
paths are rejected.  Failure is reported as `none` (the spec's
`PatternSyntaxError`). -/
def compile (pattern : String) : Option (List Segment) :=
  match pattern.data with
  | [] => none
  | c :: _ =>
      if c = '/' ∨ c = '[' then
        match scanPattern pattern.data ⟨[[]], .blank, false, false⟩ with
        | some segs =>
            if hasDupKeyPaths (segsKeyPaths segs) then none else some segs
        | none => none
      else none

/-! ## Matcher -/

mutual
/-- Modelled from the spec: matching one pattern segment (§4.2), in
continuation style — `k` matches whatever follows this segment in the
enclosing pattern.  A literal requires exact equality with the current
candidate segment; an identifier capture requires a non-empty
candidate segment and stores it at its key path in the accumulator; a
wildcard consumes all remaining candidate segments and terminates
matching successfully regardless of the remaining pattern; a param
capture is not a path segment and consumes nothing; an optional group
is tried greedily — the inner sequence followed by the continuation —
and on failure is skipped entirely with zero segments consumed.  The
source file `pattern.ts` is not part of the reviewed sources. -/
def matchSeg : Segment → List String → NMap → (List String → NMap → Option NMap) →
    Option NMap
  | .literal t, c :: cs, acc, k => if t = c then k cs acc else none
  | .literal _, [], _, _ => none
  | .identifierCapture kp, c :: cs, acc, k =>
      if c = "" then none else k cs (setKeyPath acc kp c)
  | .identifierCapture _, [], _, _ => none
  | .wildcard, _, acc, _ => some acc
  | .paramCapture _, cs, acc, k => k cs acc
  | .optionalGroup inner, cs, acc, k =>
      match matchSeq inner cs acc k with
      | some r => some r
      | none => k cs acc

/-- Matching a segment sequence against candidate path segments, in
continuation style (see `matchSeg`). -/
def matchSeq : List Segment → List String → NMap → (List String → NMap → Option NMap) →
    Option NMap
  | [], cs, acc, k => k cs acc
  | s :: rest, cs, acc, k =>
      matchSeg s cs acc (fun cs' acc' => matchSeq rest cs' acc' k)
end

/-- Match a full pattern against candidate path segments: after all
pattern segments are consumed, success requires the candidate cursor
to have reached the end (a wildcard bypasses this check by
terminating matching directly). -/
def matchSegs (segs : List Segment) (cs : List String) : Option NMap :=
  matchSeq segs cs [] (fun cs' acc' =>
    match cs' with
    | [] => some acc'
    | _ :: _ => none)

mutual
/-- Query-string param names declared by one segment. -/
def segParamNames : Segment → List String
  | .paramCapture n => [n]
  | .optionalGroup inner => segsParamNames inner
  | _ => []

/-- Query-string param names declared by a segment sequence. -/
def segsParamNames : List Segment → List String
  | [] => []
  | s :: rest => segParamNames s ++ segsParamNames rest
end

/-- Flat string lookup in an association list. -/
def lookupStr : List (String × String) → String → Option String
  | [], _ => none
  | (k, v) :: rest, key => if k = key then some v else lookupStr rest key

/-- Modelled from the spec: query params are matched separately from
the path (§4.2) — declared param names are looked up in the supplied
query mapping, and absent params are simply absent keys. -/
def collectParams (segs : List Segment) (query : List (String × String)) :
    List (String × String) :=
  (segsParamNames segs).filterMap (fun n => (lookupStr query n).map (fun v => (n, v)))

/-- The result of a successful match: the nested identifiers object
and the flat params object. -/
structure MatchResult where
  identifiers : NMap
  params : List (String × String)

/-- Modelled from the spec: `match(pattern, path, query) ->
MatchResult | null` (§4.2/§6). -/
def matchPattern (segs : List Segment) (path : String)
    (query : List (String × String)) : Option MatchResult :=
  match matchSegs segs (splitPath path) with
  | some ids => some ⟨ids, collectParams segs query⟩
  | none => none

/-! ## Generator -/

/-- Generation-time errors: a required identifier capture whose key
path has no usable value, or an attempt to generate from a
wildcard-only pattern. -/
inductive GenError where
  | missingValue (keyPath : List String)
  | notGenerable

mutual
/-- Modelled from the spec: generating the text of one segment
(§4.3).  A literal is emitted verbatim; an identifier capture looks up
its key path in the value map and the value must be a non-empty
string; a wildcard and a param capture emit nothing; an optional group
is included when its inner sequence generates, and omitted silently
otherwise.  The source file `pattern.ts` is not part of the reviewed
sources. -/
def genSeg : Segment → NMap → Except GenError (List String)
  | .literal t, _ => .ok [t]
  | .identifierCapture kp, vs =>
      match getKeyPath vs kp with
      | some (.str s) => if s = "" then .error (.missingValue kp) else .ok [s]
      | _ => .error (.missingValue kp)
  | .paramCapture _, _ => .ok []
  | .wildcard, _ => .ok []
  | .optionalGroup inner, vs =>
      match genSegs inner vs with
      | .ok parts => .ok parts
      | .error _ => .ok []

/-- Generating a segment sequence, left to right; the first failing
required capture aborts generation. -/
def genSegs : List Segment → NMap → Except GenError (List String)
  | [], _ => .ok []
  | s :: rest, vs =>
      match genSeg s vs with
      | .ok parts =>
          match genSegs rest vs with
          | .ok parts' => .ok (parts ++ parts')
          | .error e => .error e
      | .error e => .error e
end

/-- Whether a pattern consists of a single wildcard segment. -/
def wildcardOnly : List Segment → Bool
  | [.wildcard] => true
  | _ => false

/-- Modelled from the spec: `generate(pattern, values) -> pathString`
(§4.3/§6) — wildcard-only routes are not generable; otherwise the
generated segments are joined with `/` under a single leading `/`. -/
def generate (segs : List Segment) (vs : NMap) : Except GenError String :=
  if wildcardOnly segs then .error .notGenerable
  else
    match genSegs segs vs with
    | .ok parts => .ok (renderPath parts)
    | .error e => .error e

/-! ## Route-level matching and the registry -/

/-- Modelled from the spec: a Route carries its canonical pattern
followed by its alias patterns; `match` tries them in declaration
order (canonical first) and the first structural match wins (§4.2).
The source file `route.ts` is not part of the reviewed sources. -/
def matchRoutePatterns : List (List Segment) → String → Option MatchResult
  | [], _ => none
  | p :: rest, path =>
      match matchPattern p path [] with
      | some r => some r
      | none => matchRoutePatterns rest path

/-- A registered HTTP route entry: name, HTTP method (`"*"` is the
wildcard method) and compiled pattern. -/
structure HttpEntry where
  name : String
  method : String
  pattern : List Segment

/-- Whether an entry's pattern structurally matches a path. -/
def entryMatches (e : HttpEntry) (path : String) : Bool :=
  (matchPattern e.pattern path []).isSome

/-- Modelled from the spec: registry resolution (§4.4) — entries are
tried in registration order requiring method equality, and
wildcard-method entries are tried only after all non-wildcard entries
have been tried and failed.  The source file `routable.ts` is not part
of the reviewed sources. -/
def resolveRoute (entries : List HttpEntry) (path : String) (meth : String) :
    Option HttpEntry :=
  match (entries.filter (fun e => e.method != "*")).find?
      (fun e => e.method == meth && entryMatches e path) with
  | some e => some e
  | none => (entries.filter (fun e => e.method == "*")).find? (fun e => entryMatches e path)

/-! ## The `@route()` decorator accessor (from `decorators.ts`) -/

/-- The observable decoration state of one method object: which
shortcut function groups have been defined on it, the
`__isDecorated` / `__isDecoratedWithRouter` markers, and how many
times `decorate` has executed on it. -/
structure MethodFlags where
  shortcutsDefined : Bool
  isDecorated : Bool
  routerShortcutsDefined : Bool
  isDecoratedWithRouter : Bool
  decorateRuns : Nat
deriving DecidableEq

/-- Decoration state of every method object, keyed by object
identity. -/
def MethodStore := Nat → MethodFlags

/-- Point update of a method store. -/
def updateStore (σ : MethodStore) (id : Nat) (f : MethodFlags) : MethodStore :=
  fun j => if j = id then f else σ j

/-- The `decorate` closure of `decorators.ts` (lines 64–87): defines
`matchURL`, `generateURL`, `generatePath` and `generateQueryString` on
the method and marks it with `__isDecorated`. -/
def decorateObj (fl : MethodFlags) : MethodFlags :=
  { fl with shortcutsDefined := true, isDecorated := true,
            decorateRuns := fl.decorateRuns + 1 }

/-- The `decorateWithRouter` closure of `decorators.ts` (lines
89–124): defines `navigate`, `redirect`, `reload` and `isActive` on
the method and marks it with `__isDecoratedWithRouter`. -/
def decorateWithRouterObj (fl : MethodFlags) : MethodFlags :=
  { fl with routerShortcutsDefined := true, isDecoratedWithRouter := true }

/-- The property descriptor underlying a decorated route property: a
plain method value (always the same object), or an original getter
(which may return a different object on each access — `methodAt k` is
the object returned by the `k`-th access, as the source's TODO comment
on `get` acknowledges for `@view()`-style getters). -/
inductive PropertyDesc where
  | value (methodId : Nat)
  | getter (methodAt : Nat → Nat)

/-- The replacement `get` accessor of `decorators.ts` (lines 135–157):
obtain the actual method (from the original getter, or the fixed
value), decorate it unless it already owns `__isDecorated`, then
router-decorate it unless it already owns `__isDecoratedWithRouter`
and a router is present; the actual method is returned. -/
def accessRoute (d : PropertyDesc) (hasRouter : Bool) (k : Nat) (σ : MethodStore) :
    Nat × MethodStore :=
  let m := match d with
    | .value id => id
    | .getter f => f k
  let σ1 := if (σ m).isDecorated then σ else updateStore σ m (decorateObj (σ m))
  let σ2 :=
    if (σ1 m).isDecoratedWithRouter then σ1
    else if hasRouter then updateStore σ1 m (decorateWithRouterObj (σ1 m)) else σ1
  (m, σ2)

/-- A fully undecorated method object. -/
def freshFlags : MethodFlags := ⟨false, false, false, false, 0⟩

/-! ## The `isActive` shortcut (from `decorators.ts`) -/

/-- The router's current location, split into its path, query-string
and hash components. -/
structure RouterLocation where
  path : String
  queryString : String
  hash : String

/-- Modelled from the spec: `router.getCurrentPath()` (the `@layr/router`
package is not part of the reviewed sources) returns the path
component of the current location; query string and hash are separate
components (§6: `?`-delimited query and `#`-delimited fragment are
ignored by matching). -/
def getCurrentPath (r : RouterLocation) : String :=
  r.path

/-- The `isActive` shortcut of `decorators.ts` (lines 114–119): the
path generated for the route is compared for string equality with the
router's current path. -/
def isActive (routePath : String) (r : RouterLocation) : Bool :=
  routePath == getCurrentPath r

/-! ## Auxiliary predicates for the verified properties -/

mutual
/-- No string leaf of a nested value is empty. -/
def NValue.noEmpty : NValue → Bool
  | .str s => s != ""
  | .obj m => noEmptyMap m

/-- No string leaf of a nested object is empty. -/
def noEmptyMap : NMap → Bool
  | [] => true
  | (_, v) :: rest => v.noEmpty && noEmptyMap rest
end

/-- A pattern made of literal and identifier-capture segments only. -/
def onlySimple : List Segment → Bool
  | [] => true
  | .literal _ :: rest => onlySimple rest
  | .identifierCapture _ :: rest => onlySimple rest
  | _ :: _ => false

/-- Every literal of a (simple) pattern is a well-formed single path
segment, i.e. contains no `/`. -/
def litsSlashFree : List Segment → Bool
  | [] => true
  | .literal t :: rest => slashFree t && litsSlashFree rest
  | _ :: rest => litsSlashFree rest

/-- The value map supplies, for every identifier capture of the
pattern, a string value that is non-empty and contains no `/`. -/
def valuesOk : List Segment → NMap → Bool
  | [], _ => true
  | .identifierCapture kp :: rest, vs =>
      (match getKeyPath vs kp with
       | some (.str s) => s != "" && slashFree s
       | _ => false) && valuesOk rest vs
  | _ :: rest, vs => valuesOk rest vs

/-- The dotted-key-path reconstruction of a value map restricted to a
pattern's captured keys: fold the captured key paths, in pattern
order, into a nested object using the values looked up in `vs`. -/
def restrictVals : List Segment → NMap → NMap → NMap
  | [], _, acc => acc
  | .identifierCapture kp :: rest, vs, acc =>
      (match getKeyPath vs kp with
       | some (.str s) => restrictVals rest vs (setKeyPath acc kp s)
       | _ => restrictVals rest vs acc)
  | _ :: rest, vs, acc => restrictVals rest vs acc

/-- The path segments a simple pattern generates from a value map:
one per segment. -/
def partsOf : List Segment → NMap → List String
  | [], _ => []
  | .literal t :: rest, vs => t :: partsOf rest vs
  | .identifierCapture kp :: rest, vs =>
      (match getKeyPath vs kp with
       | some (.str s) => s
       | _ => "") :: partsOf rest vs
  | _ :: rest, vs => partsOf rest vs

/-- Whether a key path resolves, in a value map, to a non-empty
string (the only value usable by an identifier capture during
generation). -/
def resolvedStr (vs : NMap) (kp : List String) : Bool :=
  match getKeyPath vs kp with
  | some (.str s) => s != ""
  | _ => false

/-- The compiled segments of `/movies/:id`. -/
def movieItemSegs : List Segment :=
  [.literal "movies", .identifierCapture ["id"]]

/-- The compiled segments of `/studios/:studio.id/movies/:id`. -/
def movieWithStudioSegs : List Segment :=
  [.literal "studios", .identifierCapture ["studio", "id"],
   .literal "movies", .identifierCapture ["id"]]

/-- The compiled segments of `/:x/:y` (an adversarial canonical
pattern). -/
def captureXY : List Segment :=
  [.identifierCapture ["x"], .identifierCapture ["y"]]

/-- The compiled segments of `/:y/:x` (an adversarial alias
pattern). -/
def captureYX : List Segment :=
  [.identifierCapture ["y"], .identifierCapture ["x"]]

/-- A store in which every method object is undecorated. -/
def freshStore : MethodStore := fun _ => freshFlags

/-! ## Lemmas: path splitting inverts path rendering -/

theorem splitOnCharList_eq_single (sep : Char) (l : List Char)
    (h : ∀ c ∈ l, c ≠ sep) : splitOnCharList sep l = [l] := by
  induction l with
  | nil => rfl
  | cons c rest ih =>
    have hc : c ≠ sep := h c (by simp)
    have hrest := ih (fun c' hc' => h c' (by simp [hc']))
    simp [splitOnCharList, hc, hrest]

theorem splitOnCharList_append (sep : Char) (p t : List Char)
    (h : ∀ c ∈ p, c ≠ sep) :
    splitOnCharList sep (p ++ sep :: t) = p :: splitOnCharList sep t := by
  induction p with
  | nil => simp [splitOnCharList]
  | cons c rest ih =>
    have hc : c ≠ sep := h c (by simp)
    have ih' := ih (fun c' hc' => h c' (by simp [hc']))
    simp [splitOnCharList, hc, ih']

theorem splitSegsChars_joinSegsChars : ∀ (parts : List (List Char)), parts ≠ [] →
    (∀ p ∈ parts, ∀ c ∈ p, c ≠ '/') →
    splitSegsChars (joinSegsChars parts) = parts := by
  intro parts
  induction parts with
  | nil => intro h; exact absurd rfl h
  | cons p rest ih =>
    intro _ hall
    cases rest with
    | nil =>
      show splitSegsChars (joinSegsChars [p]) = [p]
      have : joinSegsChars [p] = p := rfl
      rw [this]
      exact splitOnCharList_eq_single '/' p (hall p (by simp))
    | cons q rest' =>
      show splitSegsChars (joinSegsChars (p :: q :: rest')) = p :: q :: rest'
      have hjoin : joinSegsChars (p :: q :: rest') = p ++ '/' :: joinSegsChars (q :: rest') := rfl
      rw [hjoin]
      have h1 : splitOnCharList '/' (p ++ '/' :: joinSegsChars (q :: rest')) =
          p :: splitOnCharList '/' (joinSegsChars (q :: rest')) :=
        splitOnCharList_append '/' p _ (hall p (by simp))
      show splitOnCharList '/' (p ++ '/' :: joinSegsChars (q :: rest')) = p :: q :: rest'
      rw [h1]
      have h2 : splitSegsChars (joinSegsChars (q :: rest')) = q :: rest' :=
        ih (by simp) (fun p' hp' c hc => hall p' (by simp [hp']) c hc)
      exact congrArg (p :: ·) h2

theorem slashFree_chars {s : String} (h : slashFree s = true) :
    ∀ c ∈ s.data, c ≠ '/' := by
  intro c hc
  have := List.all_eq_true.mp h c hc
  simpa using this

theorem splitPath_renderPath (parts : List String) (hne : parts ≠ [])
    (hsf : ∀ s ∈ parts, slashFree s = true) :
    splitPath (renderPath parts) = parts := by
  have hdata : (renderPath parts).data = '/' :: joinSegsChars (parts.map String.data) := rfl
  show (splitSegsChars (match (renderPath parts).data with
    | '/' :: rest => rest
    | cs => cs)).map (fun l => (⟨l⟩ : String)) = parts
  rw [hdata]
  have hsplit : splitSegsChars (joinSegsChars (parts.map String.data)) =
      parts.map String.data := by
    apply splitSegsChars_joinSegsChars
    · simpa using hne
    · intro p hp c hc
      obtain ⟨s, hs, rfl⟩ := List.mem_map.mp hp
      exact slashFree_chars (hsf s hs) c hc
  show (splitSegsChars (joinSegsChars (parts.map String.data))).map
      (fun l => (⟨l⟩ : String)) = parts
  rw [hsplit, List.map_map]
  have : (fun l => (⟨l⟩ : String)) ∘ String.data = id := rfl
  rw [this, List.map_id]

/-! ## Lemmas: round-trip for simple patterns -/

theorem genSegs_simple : ∀ (segs : List Segment) (vs : NMap),
    onlySimple segs = true → valuesOk segs vs = true →
    genSegs segs vs = .ok (partsOf segs vs) := by
  intro segs vs
  induction segs with
  | nil => intro _ _; rfl
  | cons s rest ih =>
    intro hs hv
    cases s with
    | literal t =>
      have hs' : onlySimple rest = true := by simpa [onlySimple] using hs
      have hv' : valuesOk rest vs = true := by simpa [valuesOk] using hv
      simp [genSegs, genSeg, partsOf, ih hs' hv']
    | identifierCapture kp =>
      have hs' : onlySimple rest = true := by simpa [onlySimple] using hs
      rw [valuesOk] at hv
      cases hg : getKeyPath vs kp with
      | none => rw [hg] at hv; simp at hv
      | some v =>
        cases v with
        | obj m => rw [hg] at hv; simp at hv
        | str sv =>
          rw [hg] at hv
          simp only [Bool.and_eq_true] at hv
          obtain ⟨⟨hne, _⟩, hv'⟩ := hv
          have hne' : sv ≠ "" := by simpa using hne
          simp [genSegs, genSeg, partsOf, hg, hne', ih hs' hv']
    | paramCapture n => simp [onlySimple] at hs
    | wildcard => simp [onlySimple] at hs
    | optionalGroup inner => simp [onlySimple] at hs

theorem matchSeq_simple : ∀ (segs : List Segment) (vs : NMap) (cs : List String)
    (acc : NMap) (k : List String → NMap → Option NMap),
    onlySimple segs = true → valuesOk segs vs = true →
    matchSeq segs (partsOf segs vs ++ cs) acc k = k cs (restrictVals segs vs acc) := by
  intro segs vs
  induction segs with
  | nil => intro cs acc k _ _; rfl
  | cons s rest ih =>
    intro cs acc k hs hv
    cases s with
    | literal t =>
      have hs' : onlySimple rest = true := by simpa [onlySimple] using hs
      have hv' : valuesOk rest vs = true := by simpa [valuesOk] using hv
      simp [partsOf, matchSeq, matchSeg, restrictVals, ih _ _ _ hs' hv']
    | identifierCapture kp =>
      have hs' : onlySimple rest = true := by simpa [onlySimple] using hs
      rw [valuesOk] at hv
      cases hg : getKeyPath vs kp with
      | none => rw [hg] at hv; simp at hv
      | some v =>
        cases v with
        | obj m => rw [hg] at hv; simp at hv
        | str sv =>
          rw [hg] at hv
          simp only [Bool.and_eq_true] at hv
          obtain ⟨⟨hne, _⟩, hv'⟩ := hv
          have hne' : sv ≠ "" := by simpa using hne
          simp [partsOf, matchSeq, matchSeg, restrictVals, hg, hne', ih _ _ _ hs' hv']
    | paramCapture n => simp [onlySimple] at hs
    | wildcard => simp [onlySimple] at hs
    | optionalGroup inner => simp [onlySimple] at hs

theorem partsOf_ne_nil (s : Segment) (rest : List Segment) (vs : NMap)
    (hs : onlySimple (s :: rest) = true) : partsOf (s :: rest) vs ≠ [] := by
  cases s with
  | literal t => simp [partsOf]
  | identifierCapture kp => simp [partsOf]
  | paramCapture n => simp [onlySimple] at hs
  | wildcard => simp [onlySimple] at hs
  | optionalGroup inner => simp [onlySimple] at hs

theorem partsOf_slashFree : ∀ (segs : List Segment) (vs : NMap),
    onlySimple segs = true → litsSlashFree segs = true → valuesOk segs vs = true →
    ∀ p ∈ partsOf segs vs, slashFree p = true := by
  intro segs vs
  induction segs with
  | nil => intro _ _ _ p hp; simp [partsOf] at hp
  | cons s rest ih =>
    intro hs hl hv p hp
    cases s with
    | literal t =>
      have hs' : onlySimple rest = true := by simpa [onlySimple] using hs
      have hv' : valuesOk rest vs = true := by simpa [valuesOk] using hv
      rw [litsSlashFree] at hl
      simp only [Bool.and_eq_true] at hl
      obtain ⟨hlt, hl'⟩ := hl
      rw [partsOf] at hp
      rcases List.mem_cons.mp hp with h | h
      · exact h ▸ hlt
      · exact ih hs' hl' hv' p h
    | identifierCapture kp =>
      have hs' : onlySimple rest = true := by simpa [onlySimple] using hs
      have hl' : litsSlashFree rest = true := by simpa [litsSlashFree] using hl
      rw [valuesOk] at hv
      cases hg : getKeyPath vs kp with
      | none => rw [hg] at hv; simp at hv
      | some v =>
        cases v with
        | obj m => rw [hg] at hv; simp at hv
        | str sv =>
          rw [hg] at hv
          simp only [Bool.and_eq_true] at hv
          obtain ⟨⟨_, hsf⟩, hv'⟩ := hv
          rw [partsOf, hg] at hp
          rcases List.mem_cons.mp hp with h | h
          · exact h ▸ hsf
          · exact ih hs' hl' hv' p h
    | paramCapture n => simp [onlySimple] at hs
    | wildcard => simp [onlySimple] at hs
    | optionalGroup inner => simp [onlySimple] at hs

theorem collectParams_nil_query (segs : List Segment) : collectParams segs [] = [] := by
  unfold collectParams
  induction segsParamNames segs with
  | nil => rfl
  | cons n rest ih => simp [List.filterMap, lookupStr, ih]

theorem onlySimple_not_wildcardOnly (segs : List Segment)
    (hs : onlySimple segs = true) : wildcardOnly segs = false := by
  cases segs with
  | nil => rfl
  | cons s rest =>
    cases s with
    | literal t => cases rest <;> rfl
    | identifierCapture kp => cases rest <;> rfl
    | paramCapture n => simp [onlySimple] at hs
    | wildcard => simp [onlySimple] at hs
    | optionalGroup inner => simp [onlySimple] at hs

/-! ## C1: round-trip -/

/-- C1 counterexample: the claim as stated is false.  The pattern
`/movies/:id` contains only Literal/IdentifierCapture segments and the
value map supplies the non-empty string `a/b` for the captured key
path `id`, yet matching the generated URL `/movies/a/b` against the
pattern fails (the value straddles a segment boundary), instead of
succeeding with the reconstructed identifiers. -/
theorem c1_counterexample :
    (onlySimple movieItemSegs = true ∧
     getKeyPath [("id", .str "a/b")] ["id"] = some (.str "a/b") ∧ "a/b" ≠ "") ∧
    generate movieItemSegs [("id", .str "a/b")] = .ok "/movies/a/b" ∧
    matchPattern movieItemSegs "/movies/a/b" [] = none :=
  ⟨⟨rfl, rfl, by decide⟩, rfl, rfl⟩

/-- C1 (amended): round-trip for every non-empty pattern containing
only Literal and IdentifierCapture segments whose literals contain no
`/`, and every value map that supplies a non-empty `/`-free string for
each of the pattern's captured key paths: matching the URL produced by
`generate` against the same pattern succeeds and yields identifiers
equal to the nested (dotted-key-path) reconstruction of the values
restricted to the pattern's captured keys, with empty params. -/
theorem c1_round_trip_simple (segs : List Segment) (vs : NMap)
    (h1 : onlySimple segs = true) (h2 : segs.isEmpty = false)
    (h3 : litsSlashFree segs = true) (h4 : valuesOk segs vs = true) :
    ∃ url, generate segs vs = .ok url ∧
      matchPattern segs url [] = some ⟨restrictVals segs vs [], []⟩ := by
  refine ⟨renderPath (partsOf segs vs), ?_, ?_⟩
  · unfold generate
    rw [onlySimple_not_wildcardOnly segs h1]
    simp [genSegs_simple segs vs h1 h4]
  · have hne : partsOf segs vs ≠ [] := by
      cases segs with
      | nil => simp [List.isEmpty] at h2
      | cons s rest => exact partsOf_ne_nil s rest vs h1
    have hsp : splitPath (renderPath (partsOf segs vs)) = partsOf segs vs :=
      splitPath_renderPath _ hne (partsOf_slashFree segs vs h1 h3 h4)
    have hk := matchSeq_simple segs vs [] [] (fun cs' acc' =>
      match cs' with
      | [] => some acc'
      | _ :: _ => none) h1 h4
    rw [List.append_nil] at hk
    unfold matchPattern matchSegs
    rw [hsp, hk]
    simp [collectParams_nil_query]

/-- C1 witness: the amended round-trip at the concrete pattern
`/movies/:id` and value map `{id: '123'}`. -/
theorem c1_round_trip_simple_witness :
    (onlySimple movieItemSegs = true ∧ movieItemSegs.isEmpty = false ∧
     litsSlashFree movieItemSegs = true ∧
     valuesOk movieItemSegs [("id", .str "123")] = true) ∧
    ∃ url, generate movieItemSegs [("id", .str "123")] = .ok url ∧
      matchPattern movieItemSegs url [] =
        some ⟨restrictVals movieItemSegs [("id", .str "123")] [], []⟩ :=
  ⟨⟨rfl, rfl, rfl, rfl⟩, c1_round_trip_simple movieItemSegs [("id", .str "123")] rfl rfl rfl rfl⟩

/-! ## C2, C3, C5: concrete matching and generation -/

/-- C2: the pattern `/studios/:studio.id/movies/:id` compiles, and
matching it against `/studios/abc/movies/123` succeeds with
identifiers `{studio: {id: 'abc'}, id: '123'}` (the association list
represents the object; dotted key paths are reconstructed as nested
objects) and empty params. -/
theorem c2_nested_key_path_match :
    compile "/studios/:studio.id/movies/:id" = some movieWithStudioSegs ∧
    matchPattern movieWithStudioSegs "/studios/abc/movies/123" [] =
      some ⟨[("studio", .obj [("id", .str "abc")]), ("id", .str "123")], []⟩ :=
  ⟨rfl, rfl⟩

/-- C3: generation from nested values — `generate` applied to the
compiled pattern `/studios/:studio.id/movies/:id` and the value map
`{id: '123', studio: {id: 'abc'}}` returns exactly
`/studios/abc/movies/123` (each capture's dotted key path is looked up
by traversing the nested value map). -/
theorem c3_generate_nested :
    compile "/studios/:studio.id/movies/:id" = some movieWithStudioSegs ∧
    generate movieWithStudioSegs
      [("id", .str "123"), ("studio", .obj [("id", .str "abc")])] =
      .ok "/studios/abc/movies/123" :=
  ⟨rfl, rfl⟩

/-- C5: optional-group independence — the pattern `[/:parentId]/movies`
compiles, matches `/movies` with empty identifiers (the group fails
greedily on the inner capture and is skipped with zero segments
consumed) and matches `/123/movies` with identifiers
`{parentId: '123'}` (the group is taken greedily). -/
theorem c5_optional_group :
    compile "[/:parentId]/movies" =
      some [.optionalGroup [.identifierCapture ["parentId"]], .literal "movies"] ∧
    matchPattern [.optionalGroup [.identifierCapture ["parentId"]], .literal "movies"]
      "/movies" [] = some ⟨[], []⟩ ∧
    matchPattern [.optionalGroup [.identifierCapture ["parentId"]], .literal "movies"]
      "/123/movies" [] = some ⟨[("parentId", .str "123")], []⟩ :=
  ⟨rfl, rfl, rfl⟩

/-! ## C4: alias equivalence -/

/-- C4 counterexample: the claim as universally stated is false.  Take
the canonical pattern `/:x/:y` and the alias `/:y/:x`.  The URL `/1/2`
conforms structurally to the canonical pattern and `/2/1` conforms to
the alias with the same captured values (`x ↦ '1'`, `y ↦ '2'`, as the
per-pattern matches and field lookups below show), yet route-level
matching — canonical first, first structural match wins — matches
`/2/1` against the canonical pattern and returns different
identifiers (`x ↦ '2'`, `y ↦ '1'`). -/
theorem c4_counterexample :
    (compile "/:x/:y" = some captureXY ∧ compile "/:y/:x" = some captureYX) ∧
    matchPattern captureXY "/1/2" [] =
      some ⟨[("x", .str "1"), ("y", .str "2")], []⟩ ∧
    matchPattern captureYX "/2/1" [] =
      some ⟨[("y", .str "2"), ("x", .str "1")], []⟩ ∧
    (lookupField [("y", .str "2"), ("x", .str "1")] "x" =
        lookupField [("x", .str "1"), ("y", .str "2")] "x" ∧
     lookupField [("y", .str "2"), ("x", .str "1")] "y" =
        lookupField [("x", .str "1"), ("y", .str "2")] "y") ∧
    matchRoutePatterns [captureXY, captureYX] "/1/2" =
      some ⟨[("x", .str "1"), ("y", .str "2")], []⟩ ∧
    matchRoutePatterns [captureXY, captureYX] "/2/1" =
      some ⟨[("x", .str "2"), ("y", .str "1")], []⟩ ∧
    matchRoutePatterns [captureXY, captureYX] "/2/1" ≠
      matchRoutePatterns [captureXY, captureYX] "/1/2" := by
  refine ⟨⟨rfl, rfl⟩, rfl, rfl, ⟨rfl, rfl⟩, rfl, rfl, ?_⟩
  intro h
  simp [matchRoutePatterns, matchPattern, matchSegs, matchSeq, matchSeg, splitPath,
    splitSegsChars, splitOnCharList, setKeyPath, setField, collectParams,
    segsParamNames, segParamNames, captureXY, captureYX] at h

/-- C4 (amended): for every Route with canonical pattern P and alias
pattern A, and every pair of URLs matching P and A respectively with
the same match result, provided the alias URL does not itself
structurally match the earlier-declared canonical pattern, route-level
matching — which tries the patterns in declaration order with the
canonical pattern first, the first structural match winning — returns
the identical identifiers and params for both URLs. -/
theorem c4_alias_equivalence (P A : List Segment) (uP uA : String) (res : MatchResult)
    (hP : matchPattern P uP [] = some res)
    (hA : matchPattern A uA [] = some res)
    (hPA : matchPattern P uA [] = none) :
    matchRoutePatterns [P, A] uP = some res ∧
    matchRoutePatterns [P, A] uA = some res := by
  constructor
  · simp [matchRoutePatterns, hP]
  · simp [matchRoutePatterns, hPA, hA]

/-- C4 witness: the amended alias equivalence at the route of the
decorator test suite — canonical `/movies/:id`, alias `/films/:id` —
for the URLs `/movies/abc123` and `/films/abc123`. -/
theorem c4_alias_equivalence_witness :
    (matchPattern movieItemSegs "/movies/abc123" [] =
        some ⟨[("id", .str "abc123")], []⟩ ∧
     matchPattern [.literal "films", .identifierCapture ["id"]] "/films/abc123" [] =
        some ⟨[("id", .str "abc123")], []⟩ ∧
     matchPattern movieItemSegs "/films/abc123" [] = none) ∧
    (matchRoutePatterns [movieItemSegs, [.literal "films", .identifierCapture ["id"]]]
        "/movies/abc123" = some ⟨[("id", .str "abc123")], []⟩ ∧
     matchRoutePatterns [movieItemSegs, [.literal "films", .identifierCapture ["id"]]]
        "/films/abc123" = some ⟨[("id", .str "abc123")], []⟩) :=
  ⟨⟨rfl, rfl, rfl⟩,
   c4_alias_equivalence movieItemSegs [.literal "films", .identifierCapture ["id"]]
     "/movies/abc123" "/films/abc123" ⟨[("id", .str "abc123")], []⟩ rfl rfl rfl⟩

/-! ## C6: identifiers never bind to an empty string -/

theorem lookupField_noEmpty : ∀ (m : NMap) (key : String) (v : NValue),
    noEmptyMap m = true → lookupField m key = some v → v.noEmpty = true := by
  intro m key
  induction m with
  | nil => intro v _ hl; simp [lookupField] at hl
  | cons p rest ih =>
    obtain ⟨k0, v0⟩ := p
    intro v hm hl
    rw [noEmptyMap] at hm
    simp only [Bool.and_eq_true] at hm
    obtain ⟨h0, hrest⟩ := hm
    rw [lookupField] at hl
    by_cases hk : k0 = key
    · rw [if_pos hk] at hl
      injection hl with h
      exact h ▸ h0
    · rw [if_neg hk] at hl
      exact ih v hrest hl

theorem setField_noEmpty : ∀ (m : NMap) (key : String) (v : NValue),
    noEmptyMap m = true → v.noEmpty = true → noEmptyMap (setField m key v) = true := by
  intro m key v
  induction m with
  | nil => intro _ hv; simp [setField, noEmptyMap, hv]
  | cons p rest ih =>
    obtain ⟨k0, v0⟩ := p
    intro hm hv
    rw [noEmptyMap] at hm
    simp only [Bool.and_eq_true] at hm
    obtain ⟨h0, hrest⟩ := hm
    rw [setField]
    by_cases hk : k0 = key
    · rw [if_pos hk]
      simp [noEmptyMap, hv, hrest]
    · rw [if_neg hk]
      simp [noEmptyMap, h0, ih hrest hv]

theorem setKeyPath_noEmpty : ∀ (kp : List String) (m : NMap) (s : String),
    noEmptyMap m = true → s ≠ "" → noEmptyMap (setKeyPath m kp s) = true := by
  intro kp
  induction kp with
  | nil => intro m s hm _; simpa [setKeyPath] using hm
  | cons key kp' ih =>
    intro m s hm hs
    cases kp' with
    | nil =>
      have hv : (NValue.str s).noEmpty = true := by
        simp [NValue.noEmpty, hs]
      simpa [setKeyPath] using setField_noEmpty m key (.str s) hm hv
    | cons key2 kp'' =>
      rw [setKeyPath]
      have hsub : noEmptyMap (match lookupField m key with
          | some (.obj m') => m'
          | _ => []) = true := by
        cases hl : lookupField m key with
        | none => rfl
        | some v =>
          cases v with
          | str s0 => rfl
          | obj m' =>
            have := lookupField_noEmpty m key (.obj m') hm hl
            simpa [NValue.noEmpty] using this
      have hinner := ih _ s hsub hs
      exact setField_noEmpty m key _ hm (by simpa [NValue.noEmpty] using hinner)

mutual
theorem matchSeg_noEmpty : ∀ (s : Segment) (cs : List String) (acc : NMap)
    (k : List String → NMap → Option NMap),
    noEmptyMap acc = true →
    (∀ cs' acc', noEmptyMap acc' = true →
      ∀ ids, k cs' acc' = some ids → noEmptyMap ids = true) →
    ∀ ids, matchSeg s cs acc k = some ids → noEmptyMap ids = true
  | .literal t, [], acc, k => by
      intro _ _ ids hm
      simp [matchSeg] at hm
  | .literal t, c :: cs, acc, k => by
      intro hacc hk ids hm
      rw [matchSeg] at hm
      by_cases hc : t = c
      · rw [if_pos hc] at hm
        exact hk cs acc hacc ids hm
      · rw [if_neg hc] at hm
        cases hm
  | .identifierCapture kp, [], acc, k => by
      intro _ _ ids hm
      simp [matchSeg] at hm
  | .identifierCapture kp, c :: cs, acc, k => by
      intro hacc hk ids hm
      rw [matchSeg] at hm
      by_cases hc : c = ""
      · rw [if_pos hc] at hm
        cases hm
      · rw [if_neg hc] at hm
        exact hk cs (setKeyPath acc kp c) (setKeyPath_noEmpty kp acc c hacc hc) ids hm
  | .wildcard, cs, acc, k => by
      intro hacc _ ids hm
      rw [matchSeg] at hm
      injection hm with h
      exact h ▸ hacc
  | .paramCapture n, cs, acc, k => by
      intro hacc hk ids hm
      rw [matchSeg] at hm
      exact hk cs acc hacc ids hm
  | .optionalGroup inner, cs, acc, k => by
      intro hacc hk ids hm
      rw [matchSeg] at hm
      cases hmm : matchSeq inner cs acc k with
      | some r =>
          rw [hmm] at hm
          injection hm with h
          exact h ▸ matchSeq_noEmpty inner cs acc k hacc hk r hmm
      | none =>
          rw [hmm] at hm
          exact hk cs acc hacc ids hm

theorem matchSeq_noEmpty : ∀ (segs : List Segment) (cs : List String) (acc : NMap)
    (k : List String → NMap → Option NMap),
    noEmptyMap acc = true →
    (∀ cs' acc', noEmptyMap acc' = true →
      ∀ ids, k cs' acc' = some ids → noEmptyMap ids = true) →
    ∀ ids, matchSeq segs cs acc k = some ids → noEmptyMap ids = true
  | [], cs, acc, k => by
      intro hacc hk ids hm
      rw [matchSeq] at hm
      exact hk cs acc hacc ids hm
  | s :: rest, cs, acc, k => by
      intro hacc hk ids hm
      rw [matchSeq] at hm
      exact matchSeg_noEmpty s cs acc _ hacc
        (fun cs' acc' h' ids' hm' => matchSeq_noEmpty rest cs' acc' k h' hk ids' hm') ids hm
end

/-- C6: the pattern `/movies/:id` compiles and does not match
`/movies/` (the trailing empty candidate segment is rejected by the
identifier capture); and in general, for every pattern and path, an
identifier capture never binds to an empty string — every string leaf
of a successful match's identifiers is non-empty. -/
theorem c6_empty_identifier_rejection :
    (compile "/movies/:id" = some movieItemSegs ∧
     matchPattern movieItemSegs "/movies/" [] = none) ∧
    ∀ (segs : List Segment) (path : String) (res : MatchResult),
      matchPattern segs path [] = some res → noEmptyMap res.identifiers = true := by
  refine ⟨⟨rfl, rfl⟩, ?_⟩
  intro segs path res hm
  unfold matchPattern at hm
  cases hms : matchSegs segs (splitPath path) with
  | none => rw [hms] at hm; cases hm
  | some ids =>
    rw [hms] at hm
    injection hm with h
    have hids : noEmptyMap ids = true := by
      unfold matchSegs at hms
      refine matchSeq_noEmpty segs (splitPath path) [] _ rfl ?_ ids hms
      intro cs' acc' hacc' ids' hk'
      cases cs' with
      | nil =>
        injection hk' with h'
        exact h' ▸ hacc'
      | cons c cs'' => cases hk'
    rw [← h]
    exact hids

/-- C6 witness: the universal no-empty-binding part applied to the
concrete match of `/movies/:id` against `/movies/abc123`. -/
theorem c6_empty_identifier_rejection_witness :
    matchPattern movieItemSegs "/movies/abc123" [] =
      some ⟨[("id", .str "abc123")], []⟩ ∧
    noEmptyMap ([("id", NValue.str "abc123")] : NMap) = true :=
  ⟨rfl, c6_empty_identifier_rejection.2 movieItemSegs "/movies/abc123"
    ⟨[("id", .str "abc123")], []⟩ rfl⟩

/-! ## C7: missing value failure -/

theorem genSegs_missing_aux : ∀ (segs : List Segment) (vs : NMap) (kp : List String),
    Segment.identifierCapture kp ∈ segs → getKeyPath vs kp = none →
    ∃ kp', genSegs segs vs = .error (.missingValue kp') ∧
      Segment.identifierCapture kp' ∈ segs ∧ resolvedStr vs kp' = false := by
  intro segs vs
  induction segs with
  | nil => intro kp h _; simp at h
  | cons s rest ih =>
    intro kp hmem hmiss
    cases s with
    | literal t =>
      have hmem' : Segment.identifierCapture kp ∈ rest := by
        rcases List.mem_cons.mp hmem with h | h
        · exact absurd h (by simp)
        · exact h
      obtain ⟨kp', he, hm', hr⟩ := ih kp hmem' hmiss
      exact ⟨kp', by simp [genSegs, genSeg, he], List.mem_cons_of_mem _ hm', hr⟩
    | identifierCapture kp0 =>
      cases hg : getKeyPath vs kp0 with
      | none =>
        refine ⟨kp0, ?_, List.mem_cons_self _ _, ?_⟩
        · simp [genSegs, genSeg, hg]
        · simp [resolvedStr, hg]
      | some v =>
        cases v with
        | obj m =>
          refine ⟨kp0, ?_, List.mem_cons_self _ _, ?_⟩
          · simp [genSegs, genSeg, hg]
          · simp [resolvedStr, hg]
        | str s0 =>
          by_cases hs0 : s0 = ""
          · refine ⟨kp0, ?_, List.mem_cons_self _ _, ?_⟩
            · simp [genSegs, genSeg, hg, hs0]
            · simp [resolvedStr, hg, hs0]
          · have hmem' : Segment.identifierCapture kp ∈ rest := by
              rcases List.mem_cons.mp hmem with h | h
              · injection h with h'
                rw [h'] at hmiss
                rw [hmiss] at hg
                cases hg
              · exact h
            obtain ⟨kp', he, hm', hr⟩ := ih kp hmem' hmiss
            refine ⟨kp', ?_, List.mem_cons_of_mem _ hm', hr⟩
            simp [genSegs, genSeg, hg, hs0, he]
    | paramCapture n =>
      have hmem' : Segment.identifierCapture kp ∈ rest := by
        rcases List.mem_cons.mp hmem with h | h
        · exact absurd h (by simp)
        · exact h
      obtain ⟨kp', he, hm', hr⟩ := ih kp hmem' hmiss
      exact ⟨kp', by simp [genSegs, genSeg, he], List.mem_cons_of_mem _ hm', hr⟩
    | wildcard =>
      have hmem' : Segment.identifierCapture kp ∈ rest := by
        rcases List.mem_cons.mp hmem with h | h
        · exact absurd h (by simp)
        · exact h
      obtain ⟨kp', he, hm', hr⟩ := ih kp hmem' hmiss
      exact ⟨kp', by simp [genSegs, genSeg, he], List.mem_cons_of_mem _ hm', hr⟩
    | optionalGroup inner =>
      have hmem' : Segment.identifierCapture kp ∈ rest := by
        rcases List.mem_cons.mp hmem with h | h
        · exact absurd h (by simp)
        · exact h
      obtain ⟨kp', he, hm', hr⟩ := ih kp hmem' hmiss
      refine ⟨kp', ?_, List.mem_cons_of_mem _ hm', hr⟩
      cases hgi : genSegs inner vs with
      | ok parts => simp [genSegs, genSeg, hgi, he]
      | error e => simp [genSegs, genSeg, hgi, he]

/-- C7: missing value failure — `generate('/movies/:id', {})` fails
with a missing-value error naming the key path `id`; and in general,
for every pattern with a (required, top-level) identifier capture
whose key path has no corresponding value in the supplied value map,
`generate` fails with a `MissingValueError` naming an unresolved
captured key path of the pattern. -/
theorem c7_missing_value :
    (compile "/movies/:id" = some movieItemSegs ∧
     generate movieItemSegs [] = .error (.missingValue ["id"])) ∧
    ∀ (segs : List Segment) (vs : NMap) (kp : List String),
      Segment.identifierCapture kp ∈ segs → getKeyPath vs kp = none →
      ∃ kp', generate segs vs = .error (.missingValue kp') ∧
        Segment.identifierCapture kp' ∈ segs ∧ resolvedStr vs kp' = false := by
  refine ⟨⟨rfl, rfl⟩, ?_⟩
  intro segs vs kp hmem hmiss
  obtain ⟨kp', he, hm', hr⟩ := genSegs_missing_aux segs vs kp hmem hmiss
  have hwo : wildcardOnly segs = false := by
    cases segs with
    | nil => rfl
    | cons s rest =>
      cases s with
      | literal t => rfl
      | identifierCapture kp0 => rfl
      | paramCapture n => rfl
      | optionalGroup inner => rfl
      | wildcard =>
        cases rest with
        | nil =>
          rcases List.mem_cons.mp hmem with h | h
          · exact absurd h (by simp)
          · simp at h
        | cons s' rest' => rfl
  refine ⟨kp', ?_, hm', hr⟩
  unfold generate
  rw [hwo]
  simp [he]

/-- C7 witness: the universal missing-value failure applied to the
concrete pattern `/movies/:id` and the empty value map. -/
theorem c7_missing_value_witness :
    (Segment.identifierCapture ["id"] ∈ movieItemSegs ∧
     getKeyPath [] ["id"] = none) ∧
    ∃ kp', generate movieItemSegs [] = .error (.missingValue kp') ∧
      Segment.identifierCapture kp' ∈ movieItemSegs ∧ resolvedStr [] kp' = false :=
  ⟨⟨by simp [movieItemSegs], rfl⟩,
   c7_missing_value.2 movieItemSegs [] ["id"] (by simp [movieItemSegs]) rfl⟩

/-! ## C8: wildcard catch-all and resolution order -/

/-- C8: the pattern `/*` compiles to a single wildcard segment, which
matches every path; and during registry resolution a wildcard-method
entry is tried only after every non-wildcard entry has been tried and
failed, so whenever some non-wildcard entry with the requested method
structurally matches the URL, resolution returns a non-wildcard entry
with that method whose pattern matches — never the catch-all. -/
theorem c8_wildcard_catch_all :
    compile "/*" = some [Segment.wildcard] ∧
    (∀ path : String, matchPattern [Segment.wildcard] path [] = some ⟨[], []⟩) ∧
    ∀ (entries : List HttpEntry) (path meth : String) (e : HttpEntry),
      e ∈ entries → e.method ≠ "*" → e.method = meth → entryMatches e path = true →
      ∃ e', resolveRoute entries path meth = some e' ∧ e'.method ≠ "*" ∧
        e'.method = meth ∧ entryMatches e' path = true := by
  refine ⟨rfl, ?_, ?_⟩
  · intro path
    simp [matchPattern, matchSegs, matchSeq, matchSeg, collectParams,
      segsParamNames, segParamNames]
  · intro entries path meth e hmem hnw hmeq hmat
    have hmemf : e ∈ entries.filter (fun e => e.method != "*") :=
      List.mem_filter.mpr ⟨hmem, by simp [bne_iff_ne, hnw]⟩
    have hpred : (fun e => e.method == meth && entryMatches e path) e = true := by
      simp [hmeq, hmat]
    have hsome : ((entries.filter (fun e => e.method != "*")).find?
        (fun e => e.method == meth && entryMatches e path)).isSome :=
      List.find?_isSome.mpr ⟨e, hmemf, hpred⟩
    obtain ⟨e', he'⟩ := Option.isSome_iff_exists.mp hsome
    have hp' := List.find?_some he'
    simp only [Bool.and_eq_true, beq_iff_eq] at hp'
    have hm' := List.mem_of_find?_eq_some he'
    have hnw' : e'.method ≠ "*" := by
      have := (List.mem_filter.mp hm').2
      simpa [bne_iff_ne] using this
    refine ⟨e', ?_, hnw', hp'.1, hp'.2⟩
    unfold resolveRoute
    rw [he']

/-- C8 witness: the resolution-order part applied to the registry of
the decorator test suite — a `GET /movies/:id` entry followed by a
catch-all `* /*` entry — for the URL `/movies/abc123` and method
`GET`. -/
theorem c8_wildcard_catch_all_witness :
    (HttpEntry.mk "getMovie" "GET" movieItemSegs ∈
        [HttpEntry.mk "getMovie" "GET" movieItemSegs,
         HttpEntry.mk "routeNotFound" "*" [Segment.wildcard]] ∧
     ("GET" : String) ≠ "*" ∧
     entryMatches (HttpEntry.mk "getMovie" "GET" movieItemSegs) "/movies/abc123" = true) ∧
    ∃ e', resolveRoute
        [HttpEntry.mk "getMovie" "GET" movieItemSegs,
         HttpEntry.mk "routeNotFound" "*" [Segment.wildcard]]
        "/movies/abc123" "GET" = some e' ∧ e'.method ≠ "*" ∧
      e'.method = "GET" ∧ entryMatches e' "/movies/abc123" = true :=
  ⟨⟨by simp, by decide, rfl⟩,
   c8_wildcard_catch_all.2.2
     [HttpEntry.mk "getMovie" "GET" movieItemSegs,
      HttpEntry.mk "routeNotFound" "*" [Segment.wildcard]]
     "/movies/abc123" "GET" (HttpEntry.mk "getMovie" "GET" movieItemSegs)
     (by simp) (by decide) rfl rfl⟩

/-! ## C9: decoration idempotence of the route property accessor -/

theorem updateStore_self (σ : MethodStore) (id : Nat) (f : MethodFlags) :
    updateStore σ id f id = f := by
  simp [updateStore]

/-- C9 counterexample: the claim as stated is false for getter-backed
route properties.  For a property whose original getter returns a
fresh method object on each access (as the test suite's
`@view()`-style getters do), the second access returns a different
function object (object `1`, not object `0`), and decoration runs
again on it — accessing twice is not observationally equal to
accessing once. -/
theorem c9_counterexample :
    (accessRoute (.getter (fun k => k)) false 0 freshStore).1 = 0 ∧
    (accessRoute (.getter (fun k => k)) false 1
        (accessRoute (.getter (fun k => k)) false 0 freshStore).2).1 = 1 ∧
    (0 : Nat) ≠ 1 ∧
    ((accessRoute (.getter (fun k => k)) false 0 freshStore).2 0).decorateRuns = 1 ∧
    ((accessRoute (.getter (fun k => k)) false 1
        (accessRoute (.getter (fun k => k)) false 0 freshStore).2).2 1).decorateRuns = 1 :=
  ⟨rfl, rfl, by decide, rfl, rfl⟩

/-- C9 (amended): for every `@route()`-decorated method property whose
descriptor carries a plain method value (so every access yields the
same underlying method object), the first access defines the shortcut
functions on the method and marks it `__isDecorated`, and every
subsequent access returns the same function object without re-running
decoration: the store after the second access equals the store after
the first. -/
theorem c9_value_idempotent (id : Nat) (hr : Bool) (σ0 σ1 : MethodStore) (k1 k2 : Nat)
    (h : (σ0 id).isDecorated = false)
    (hσ1 : σ1 = (accessRoute (.value id) hr k1 σ0).2) :
    (accessRoute (.value id) hr k1 σ0).1 = id ∧
    (σ1 id).shortcutsDefined = true ∧ (σ1 id).isDecorated = true ∧
    (σ1 id).decorateRuns = (σ0 id).decorateRuns + 1 ∧
    (accessRoute (.value id) hr k2 σ1).1 = id ∧
    (accessRoute (.value id) hr k2 σ1).2 = σ1 := by
  subst hσ1
  cases hr with
  | false =>
    refine ⟨rfl, ?_, ?_, ?_, rfl, ?_⟩ <;>
      simp [accessRoute, updateStore_self, decorateObj, decorateWithRouterObj, h]
  | true =>
    by_cases hw : (σ0 id).isDecoratedWithRouter = true
    · refine ⟨rfl, ?_, ?_, ?_, rfl, ?_⟩ <;>
        simp [accessRoute, updateStore_self, decorateObj, decorateWithRouterObj, h, hw]
    · have hw' : (σ0 id).isDecoratedWithRouter = false := by
        simpa using hw
      refine ⟨rfl, ?_, ?_, ?_, rfl, ?_⟩ <;>
        simp [accessRoute, updateStore_self, decorateObj, decorateWithRouterObj, h, hw']

/-- C9 witness: the amended idempotence at a concrete value-backed
method (object `0`, no router, fresh store). -/
theorem c9_value_idempotent_witness :
    (freshStore 0).isDecorated = false ∧
    ((accessRoute (.value 0) false 0 freshStore).1 = 0 ∧
     (((accessRoute (.value 0) false 0 freshStore).2) 0).shortcutsDefined = true ∧
     (((accessRoute (.value 0) false 0 freshStore).2) 0).isDecorated = true ∧
     (((accessRoute (.value 0) false 0 freshStore).2) 0).decorateRuns =
        (freshStore 0).decorateRuns + 1 ∧
     (accessRoute (.value 0) false 1 (accessRoute (.value 0) false 0 freshStore).2).1 = 0 ∧
     (accessRoute (.value 0) false 1 (accessRoute (.value 0) false 0 freshStore).2).2 =
        (accessRoute (.value 0) false 0 freshStore).2) :=
  ⟨rfl,
   c9_value_idempotent 0 false freshStore (accessRoute (.value 0) false 0 freshStore).2
     0 1 rfl rfl⟩

/-! ## C10: isActive semantics -/

/-- C10: for a `@route()`-decorated method controlled by a router,
`isActive` returns `true` if and only if the generated route path is
exactly equal, as a string, to the router's current path; the current
query string and hash play no role in the comparison. -/
theorem c10_isActive (routePath : String) (r : RouterLocation) :
    (isActive routePath r = true ↔ routePath = r.path) ∧
    ∀ q h q' h', isActive routePath ⟨r.path, q, h⟩ = isActive routePath ⟨r.path, q', h'⟩ := by
  constructor
  · simp [isActive, getCurrentPath]
  · intro q h q' h'
    rfl

end Layr
